import Mathlib

/-!
Verification of the task pipeline engine of the AI Video Generator service
(`src/main.py`), shallowly embedded in Lean.

The embedding models:
- the task data model (`tasks` dict entries) and its lifecycle transitions,
- the bounded-concurrency submission path (`TASK_SEMAPHORE`,
  `start_generation_in_thread`, `generate_video`),
- the partial-failure loops (`download_multiple_videos`,
  `convert_multiple_to_shorts`),
- the duration-matched compilation loop (`create_seamless_video_compilation`),
- caption grouping (`create_smart_word_groups`),
- the clip-count policy (`calculate_required_clips`),
- the task-store operations (`log_task`, `get_task_status`),
- the post-merge caption stage of `process_video_generation`.

Durations and timestamps are modelled as rationals; media files are modelled by
their path strings; per-item network/transcode outcomes are modelled by a
success predicate or an `Except` value supplied as a parameter.
-/

/-- Task status values, as used in `tasks[task_id]['status']`. -/
inductive TaskStatus
  | pending
  | processing
  | completed
  | failed
deriving DecidableEq

/-- One entry of the global `tasks` dict (src/main.py lines 790-798).
`completed_at : Bool` records whether the `completed_at` timestamp is set;
`stop` models the JSON key named after the last timestamp of a word. -/
structure TaskRec where
  status : TaskStatus
  progress : Option String
  error : Option String
  output_file : Option String
  duration : Option ℚ
  completed_at : Bool
  logs : List String
deriving DecidableEq

/-- The initial progress message of a freshly created task (line 792). -/
def MSG_TASK_CREATED : String := "Task created"

/-- The progress message written on completion (line 727). -/
def MSG_COMPLETED : String := "Video generation completed!"

/-- The task record created by the `POST /generate-video` handler
(src/main.py lines 790-798): status pending, no error, no output file,
no duration, no completion timestamp. The `logs` key is absent until the
first `log_task` call, which `setdefault`s it to the empty list. -/
def init_task : TaskRec :=
  { status := TaskStatus.pending
    progress := some MSG_TASK_CREATED
    error := none
    output_file := none
    duration := none
    completed_at := false
    logs := [] }

/-- Line 626: `tasks[task_id]['status'] = 'processing'`. -/
def set_processing (t : TaskRec) : TaskRec :=
  { t with status := TaskStatus.processing }

/-- Lines 726-729: transition to completed, recording the output file and the
completion timestamp, and updating progress. -/
def complete_task (t : TaskRec) (out : String) : TaskRec :=
  { t with
    status := TaskStatus.completed
    progress := some MSG_COMPLETED
    output_file := some out
    completed_at := true }

/-- Lines 760-762: transition to failed, recording the error string and the
completion timestamp. -/
def fail_task (t : TaskRec) (err : String) : TaskRec :=
  { t with status := TaskStatus.failed, error := some err, completed_at := true }

/-- A mid-pipeline progress update (`tasks[task_id]['progress'] = ...`). -/
def set_progress (t : TaskRec) (msg : String) : TaskRec :=
  { t with progress := some msg }

/-- Line 650: `tasks[task_id]['duration'] = target_duration`. -/
def set_duration (t : TaskRec) (d : ℚ) : TaskRec :=
  { t with duration := some d }

/-- The formatted log line `f"[{ts}] {message}"` of `log_task` (line 88). -/
def log_line (ts msg : String) : String :=
  "[" ++ ts ++ "] " ++ msg

/-- The effect of `log_task` on one task record (lines 90-92): append the
timestamped line to the log buffer and mirror the raw message into
`progress`.  No truncation of any kind is performed. -/
def log_task_rec (t : TaskRec) (ts msg : String) : TaskRec :=
  { t with logs := t.logs ++ [log_line ts msg], progress := some msg }

/-- Appending a whole sequence of `(timestamp, message)` pairs via
`log_task_rec`, in order. -/
def append_logs (t : TaskRec) (msgs : List (String × String)) : TaskRec :=
  msgs.foldl (fun acc p => log_task_rec acc p.1 p.2) t

/-- The mutations `process_video_generation` and the submission handler apply
to a single task record, with the control-flow guards of the source: the
`pending → processing` write is the first statement of the pipeline body
(line 626), and the terminal writes happen inside the body / its `except`
handler, hence from the processing state. -/
inductive PipelineStep : TaskRec → TaskRec → Prop
  | start (t : TaskRec) :
      t.status = TaskStatus.pending → PipelineStep t (set_processing t)
  | complete (t : TaskRec) (out : String) :
      t.status = TaskStatus.processing → PipelineStep t (complete_task t out)
  | fail (t : TaskRec) (err : String) :
      t.status = TaskStatus.processing → PipelineStep t (fail_task t err)
  | progress (t : TaskRec) (msg : String) :
      PipelineStep t (set_progress t msg)
  | duration (t : TaskRec) (d : ℚ) :
      PipelineStep t (set_duration t d)
  | log (t : TaskRec) (ts msg : String) :
      PipelineStep t (log_task_rec t ts msg)

/-- Task records reachable from the record created at submission time by the
pipeline's own mutations. -/
inductive ReachableTask : TaskRec → Prop
  | init : ReachableTask init_task
  | step {t t' : TaskRec} :
      ReachableTask t → PipelineStep t t' → ReachableTask t'

/-- The terminal-state invariant claimed of every task record. -/
def TaskInv (t : TaskRec) : Prop :=
  (t.status = TaskStatus.completed → t.output_file.isSome ∧ t.error = none) ∧
  (t.status = TaskStatus.failed → t.error.isSome ∧ t.output_file = none) ∧
  (t.completed_at = true ↔
    (t.status = TaskStatus.completed ∨ t.status = TaskStatus.failed)) ∧
  ((t.status = TaskStatus.pending ∨ t.status = TaskStatus.processing) →
    t.output_file = none ∧ t.error = none ∧ t.completed_at = false)

/-- The global `tasks` registry, keyed by task id. -/
abbrev TaskStore := List (String × TaskRec)

/-- Dict lookup `tasks[task_id]` / membership test `task_id in tasks`. -/
def lookupTask (s : TaskStore) (id : String) : Option TaskRec :=
  (s.find? (fun p => p.1 == id)).map (fun p => p.2)

/-- `log_task` (src/main.py lines 84-95) at store level: when the id is
present, it appends to that record's log buffer and mirrors progress; when the
id is unknown, the `if task_id in tasks` guard fails and the function returns
normally having changed nothing — it raises nothing and reports nothing. -/
def log_task (s : TaskStore) (id ts msg : String) : TaskStore :=
  match lookupTask s id with
  | some _ =>
      s.map (fun p => if p.1 == id then (p.1, log_task_rec p.2 ts msg) else p)
  | none => s

/-- The 404 detail string of the status endpoint (line 847). -/
def ERR_TASK_NOT_FOUND : String := "Task not found"

/-- `GET /task/task_id` (lines 843-860): a well-formed record for a known id,
an HTTP 404 `Task not found` failure for an unknown id. -/
def get_task_status (s : TaskStore) (id : String) : Except String TaskRec :=
  match lookupTask s id with
  | none => Except.error ERR_TASK_NOT_FOUND
  | some t => Except.ok t

/-- `MAX_CONCURRENT_TASKS = int(os.getenv("MAX_CONCURRENT_TASKS", "1"))`
(line 35): the configured concurrency capacity, default 1. -/
def MAX_CONCURRENT_TASKS : Nat := 1

/-- `TASK_SEMAPHORE = asyncio.Semaphore(MAX_CONCURRENT_TASKS)` (line 53).
The semaphore is created with this many permits and — decisive for claim
C3 — is never acquired or released anywhere in the program, so its permit
count is a constant. -/
def TASK_SEMAPHORE_permits : Nat := MAX_CONCURRENT_TASKS

/-- Server state relevant to concurrency: the task registry and the number of
background threads currently executing `process_video_generation`. -/
structure ServerState where
  tasks : TaskStore
  active_pipelines : Nat
deriving DecidableEq

/-- The server before any submission. -/
def init_server : ServerState :=
  { tasks := [], active_pipelines := 0 }

/-- `start_generation_in_thread` (lines 772-782): starts a daemon thread whose
target immediately runs `process_video_generation`.  Nothing in the thread
target, nor anywhere on this path, waits on `TASK_SEMAPHORE`, so each call
unconditionally adds one actively executing pipeline. -/
def start_generation_in_thread (s : ServerState) : ServerState :=
  { s with active_pipelines := s.active_pipelines + 1 }

/-- The `POST /generate-video` handler (lines 784-808): create the pending
task record, then call `start_generation_in_thread`. -/
def generate_video (s : ServerState) (task_id : String) : ServerState :=
  start_generation_in_thread { s with tasks := (task_id, init_task) :: s.tasks }

/-- A transcribed word: the stripped text (`word["word"].strip()`) as a
character list, and start/stop times in seconds (`stop` models the source's
key for the word's end time). -/
structure Word where
  word : List Char
  start : ℚ
  stop : ℚ
deriving DecidableEq

/-- Helper to build a `Word` from a string literal. -/
def mkWord (s : String) (a b : ℚ) : Word :=
  { word := s.data, start := a, stop := b }

/-- Python `str.strip()`: drop whitespace from both ends. -/
def pyStrip (s : List Char) : List Char :=
  ((s.dropWhile Char.isWhitespace).reverse.dropWhile Char.isWhitespace).reverse

/-- The break punctuation list of `create_smart_word_groups` (line 509). -/
def break_puncts : List Char :=
  ['.', '!', '?', ',', ';', ':']

/-- Line 509: `any(punct in word_text for punct in [...])` with
`word_text = word["word"].strip()`.  Each punctuation mark is a single
character, so Python's substring test is character membership: the word text
CONTAINS a break character anywhere, not necessarily at its end. -/
def has_break_punct (w : Word) : Bool :=
  break_puncts.any (fun p => (pyStrip w.word).contains p)

/-- The accumulation loop of `create_smart_word_groups` (lines 505-516):
append the word to the current group, then close the group when the word has
break punctuation or the group has reached 3 words; flush a non-empty trailing
group at the end. -/
def smart_groups_go : List Word → List Word → List (List Word)
  | [], current_group =>
      if current_group.isEmpty then [] else [current_group]
  | w :: rest, current_group =>
      let g := current_group ++ [w]
      if has_break_punct w = true ∨ 3 ≤ g.length then
        g :: smart_groups_go rest []
      else
        smart_groups_go rest g

/-- `create_smart_word_groups` (src/main.py lines 500-518). -/
def create_smart_word_groups (words : List Word) : List (List Word) :=
  smart_groups_go words []

/-- Modelled from the spec, for refinement comparison only (this is NOT the
source's rule): close a group when the current word's text ENDS WITH a
sentence/clause-terminating punctuation mark, as §4.3 stage 7 words it. -/
def spec_has_break (w : Word) : Bool :=
  match (pyStrip w.word).getLast? with
  | some c => break_puncts.contains c
  | none => false

/-- The same accumulation loop driven by the spec's ends-with rule. -/
def spec_groups_go : List Word → List Word → List (List Word)
  | [], current_group =>
      if current_group.isEmpty then [] else [current_group]
  | w :: rest, current_group =>
      let g := current_group ++ [w]
      if spec_has_break w = true ∨ 3 ≤ g.length then
        g :: spec_groups_go rest []
      else
        spec_groups_go rest g

/-- Caption grouping as the spec's sentence describes it. -/
def spec_smart_word_groups (words : List Word) : List (List Word) :=
  spec_groups_go words []

/-- `MIN_CLIPS = 3` (line 43). -/
def MIN_CLIPS : ℤ := 3

/-- `MAX_CLIPS = 10` (line 44). -/
def MAX_CLIPS : ℤ := 10

/-- Python `int()` applied to a rational: truncation toward zero,
`num.tdiv den`. -/
def pyInt (q : ℚ) : ℤ :=
  q.num.tdiv q.den

/-- `calculate_required_clips` (src/main.py lines 618-621):
`int(target_duration / average_clip_duration) + 2`, clamped to
`[MIN_CLIPS, MAX_CLIPS]`.  The pipeline calls it with the default
`average_clip_duration = 15.0`. -/
def calculate_required_clips (target_duration average_clip_duration : ℚ) : ℤ :=
  max MIN_CLIPS (min MAX_CLIPS (pyInt (target_duration / average_clip_duration) + 2))

/-- The segment consumed by one iteration of the compilation loop
(lines 420-428): the whole current clip if its length fits in the remaining
budget, otherwise a prefix of exactly the remaining budget.  The clip cursor
is `video_index % len(loaded_videos)`. -/
def clip_take (lens : List ℚ) (target current : ℚ) (idx : Nat) : ℚ :=
  if lens.getD (idx % lens.length) 0 ≤ target - current then
    lens.getD (idx % lens.length) 0
  else
    target - current

/-- The `while current_duration < target_duration` loop of
`create_seamless_video_compilation` (lines 419-432), returning the list of
consumed segment lengths in order.  The loop has no bound in the source; the
`fuel` argument only makes the recursion structural, and the theorems below
show some sufficient fuel always exists. -/
def compile_loop (lens : List ℚ) (target : ℚ) : ℚ → Nat → Nat → Option (List ℚ)
  | current, _, 0 => if current < target then none else some []
  | current, idx, Nat.succ f =>
      if current < target then
        (compile_loop lens target
            (current + clip_take lens target current idx) (idx + 1) f).map
          (fun rest => clip_take lens target current idx :: rest)
      else some []

/-- `create_seamless_video_compilation` (src/main.py lines 393-470), reduced
to its scheduling content: the positive lengths of the successfully loaded
clips go in, the consumed segment lengths come out. -/
def create_seamless_video_compilation (lens : List ℚ) (target_duration : ℚ)
    (fuel : Nat) : Option (List ℚ) :=
  compile_loop lens target_duration 0 0 fuel

/-- The stage-failure message of `download_multiple_videos` (line 245). -/
def ERR_NO_DOWNLOADS : String := "Failed to download any videos"

/-- The stage-failure message of `convert_multiple_to_shorts` (line 287). -/
def ERR_NO_CONVERSIONS : String := "Failed to convert any videos to shorts format"

/-- The per-item loop of `download_multiple_videos` (lines 222-242): a failed
item is logged and skipped (`continue`), a successful one is appended, so the
survivors keep their original order. -/
def download_loop {α : Type} (ok : α → Bool) : List α → List α
  | [] => []
  | x :: xs => if ok x then x :: download_loop ok xs else download_loop ok xs

/-- `download_multiple_videos` (src/main.py lines 216-247): run the per-item
loop, raise only when no item survived.  `ok` models whether the item's
network fetch succeeds. -/
def download_multiple_videos {α : Type} (ok : α → Bool) (items : List α) :
    Except String (List α) :=
  if (download_loop ok items).isEmpty then Except.error ERR_NO_DOWNLOADS
  else Except.ok (download_loop ok items)

/-- The per-item loop of `convert_multiple_to_shorts` (lines 270-284), same
skip-on-error shape as the download loop. -/
def convert_loop {α : Type} (ok : α → Bool) : List α → List α
  | [] => []
  | x :: xs => if ok x then x :: convert_loop ok xs else convert_loop ok xs

/-- `convert_multiple_to_shorts` (src/main.py lines 265-289).  `ok` models
whether the item's ffmpeg conversion succeeds. -/
def convert_multiple_to_shorts {α : Type} (ok : α → Bool) (items : List α) :
    Except String (List α) :=
  if (convert_loop ok items).isEmpty then Except.error ERR_NO_CONVERSIONS
  else Except.ok (convert_loop ok items)

/-- The merged, caption-free artifact written by `merge_voiceover`
(lines 668-670): `temp_videos/task_id/merged_video.mp4`. -/
def mergedPath (task_id : String) : String :=
  "temp_videos/" ++ task_id ++ "/merged_video.mp4"

/-- The final output path `output_videos/task_id_final.mp4` (lines 580, 723). -/
def finalPath (task_id : String) : String :=
  "output_videos/" ++ task_id ++ "_final.mp4"

/-- The error prefix re-raised when Whisper transcription throws (line 715). -/
def ERR_CAPTION_PREFIX : String := "Caption generation failed: "

/-- The tail of `process_video_generation` after a successful audio/video
merge (src/main.py lines 672-729 together with the `except` handler at
757-762): `transcription` is the outcome of the Whisper call (word list, or
the exception it raised); `overlay` is the outcome of
`add_captions_to_video`, consulted only when the word list is non-empty.
A transcription exception is caught, wrapped in `Caption generation
failed: ...` and re-raised, which the outer handler turns into a failed
task; an empty word list completes the task with `finalPath` recorded as
`output_file` (the `else` branch at line 723 — no file is written there). -/
def caption_stage (task_id : String) (t : TaskRec)
    (transcription : Except String (List Word))
    (overlay : Except String String) : TaskRec :=
  match transcription with
  | Except.error e => fail_task t (ERR_CAPTION_PREFIX ++ e)
  | Except.ok words =>
      if words.isEmpty then complete_task t (finalPath task_id)
      else
        match overlay with
        | Except.error e => fail_task t e
        | Except.ok out => complete_task t out

/-- The spec's worked caption example: words Hello / world, / today / is /
great (timings arbitrary). -/
def hello_w1 : Word := mkWord "Hello" 0 1
def hello_w2 : Word := mkWord "world," 1 2
def hello_w3 : Word := mkWord "today" 2 3
def hello_w4 : Word := mkWord "is" 3 4
def hello_w5 : Word := mkWord "great" 4 5

/-- The word list of the spec's caption example. -/
def hello_words : List Word :=
  [hello_w1, hello_w2, hello_w3, hello_w4, hello_w5]

/-- A word whose text contains a break character without ending in one. -/
def cex_w1 : Word := mkWord "3.5" 0 1
def cex_w2 : Word := mkWord "a" 1 2
def cex_w3 : Word := mkWord "b" 2 3
def cex_w4 : Word := mkWord "c" 3 4

/-- Input separating the source's containment rule from the spec's
ends-with rule. -/
def cex_words : List Word :=
  [cex_w1, cex_w2, cex_w3, cex_w4]

/-! ### Helper lemmas -/

/-- The two candidate output paths differ for every task id (their lengths
differ by 5). -/
lemma finalPath_ne_mergedPath (task_id : String) :
    finalPath task_id ≠ mergedPath task_id := by
  intro h
  have hl := congrArg String.length h
  have e1 : ("output_videos/").length = 14 := rfl
  have e2 : ("_final.mp4").length = 10 := rfl
  have e3 : ("temp_videos/").length = 12 := rfl
  have e4 : ("/merged_video.mp4").length = 17 := rfl
  simp only [finalPath, mergedPath, String.length_append, e1, e2, e3, e4] at hl
  omega

/-- On nonnegative rationals, Python truncation agrees with the floor. -/
lemma pyInt_eq_floor (q : ℚ) (h : 0 ≤ q) : pyInt q = ⌊q⌋ := by
  rw [Rat.floor_def]
  exact Int.tdiv_eq_ediv (Rat.num_nonneg.mpr h) (by positivity)

/-- `calculate_required_clips` at the default average, in floor form. -/
lemma calculate_required_clips_eq_floor (d : ℚ) (hd : 0 ≤ d) :
    calculate_required_clips d 15 = max 3 (min 10 (⌊d / 15⌋ + 2)) := by
  have h15 : (0:ℚ) ≤ d / 15 := by positivity
  simp only [calculate_required_clips, MIN_CLIPS, MAX_CLIPS, pyInt_eq_floor _ h15]

/-- The log buffer after a sequence of appends: everything is retained, in
order, with the new lines at the end. -/
lemma append_logs_logs (msgs : List (String × String)) :
    ∀ t : TaskRec,
      (append_logs t msgs).logs = t.logs ++ msgs.map (fun p => log_line p.1 p.2) := by
  induction msgs with
  | nil => intro t; simp [append_logs]
  | cons p rest ih =>
      intro t
      show (append_logs (log_task_rec t p.1 p.2) rest).logs = _
      rw [ih]
      simp [log_task_rec]

/-- After a non-empty sequence of appends, `progress` mirrors the last
message. -/
lemma append_logs_progress (msgs : List (String × String)) :
    ∀ (p : String × String) (t : TaskRec), msgs.getLast? = some p →
      (append_logs t msgs).progress = some p.2 := by
  induction msgs with
  | nil => intro p t h; simp at h
  | cons q rest ih =>
      intro p t h
      cases rest with
      | nil =>
          simp at h
          subst h
          simp [append_logs, log_task_rec]
      | cons r rest2 =>
          rw [List.getLast?_cons_cons] at h
          exact ih p (log_task_rec t q.1 q.2) h

/-! ### C1 -/

/-- C1, counterexample: after a successful merge, a transcription failure
(the Whisper call raising) drives the task to status `failed`, not
`completed` — the claim's fallback does not happen in the source, which
re-raises `Caption generation failed: ...` (line 715). -/
theorem C1_counterexample :
    (caption_stage "t1" (set_processing init_task)
        (Except.error "whisper crashed")
        (Except.ok (finalPath "t1"))).status = TaskStatus.failed ∧
    (caption_stage "t1" (set_processing init_task)
        (Except.error "whisper crashed")
        (Except.ok (finalPath "t1"))).status ≠ TaskStatus.completed := by
  constructor
  · rfl
  · decide

/-- C1, amended: after a successful merge, only the empty-word-list outcome
completes the task, and it records `output_videos/task_id_final.mp4` (a path
distinct from the merged artifact's `temp_videos/task_id/merged_video.mp4`,
and one nothing has written in that branch) as the output location; a
transcription exception instead fails the task with the wrapped error. -/
theorem C1_theorem (task_id : String) (t : TaskRec) (e : String)
    (overlay : Except String String) :
    caption_stage task_id t (Except.ok []) overlay
        = complete_task t (finalPath task_id) ∧
    (caption_stage task_id t (Except.ok []) overlay).status
        = TaskStatus.completed ∧
    (caption_stage task_id t (Except.ok []) overlay).output_file
        = some (finalPath task_id) ∧
    caption_stage task_id t (Except.error e) overlay
        = fail_task t (ERR_CAPTION_PREFIX ++ e) ∧
    (caption_stage task_id t (Except.error e) overlay).status
        = TaskStatus.failed ∧
    finalPath task_id ≠ mergedPath task_id :=
  ⟨rfl, rfl, rfl, rfl, rfl, finalPath_ne_mergedPath task_id⟩

/-! ### C3 -/

/-- C3: with the default capacity `MAX_CONCURRENT_TASKS = 1`, two submissions
to `POST /generate-video` leave two pipelines executing stage logic at once:
each submission spawns its processing thread unconditionally and
`TASK_SEMAPHORE` is never acquired, so the configured bound is not
enforced. -/
theorem C3_theorem :
    (generate_video (generate_video init_server "t1") "t2").active_pipelines = 2 ∧
    MAX_CONCURRENT_TASKS = 1 ∧
    TASK_SEMAPHORE_permits
      < (generate_video (generate_video init_server "t1") "t2").active_pipelines := by
  refine ⟨rfl, rfl, ?_⟩
  decide

/-! ### C6 -/

/-- C6, counterexample: appending 51 messages to a fresh task leaves a log
buffer of 51 lines — `log_task` never truncates, so the buffer does not hold
exactly the most recent 50 messages. -/
theorem C6_counterexample :
    (append_logs init_task (List.replicate 51 ("ts", "m"))).logs.length = 51 ∧
    (append_logs init_task (List.replicate 51 ("ts", "m"))).logs.length ≠ 50 := by
  have h := append_logs_logs (List.replicate 51 ("ts", "m")) init_task
  constructor
  · rw [h]; simp [init_task]
  · rw [h]; simp [init_task]

/-- C6, amended: after appending any sequence of messages the buffer contains
ALL of them, in original append order, with no eviction (even when more than
50 were appended), and the most recently appended message is mirrored into
`progress`. -/
theorem C6_theorem (t : TaskRec) (msgs : List (String × String))
    (p : String × String) (h : msgs.getLast? = some p) :
    (append_logs t msgs).logs
        = t.logs ++ msgs.map (fun q => log_line q.1 q.2) ∧
    (append_logs t msgs).logs.length = t.logs.length + msgs.length ∧
    (append_logs t msgs).progress = some p.2 := by
  refine ⟨append_logs_logs msgs t, ?_, append_logs_progress msgs p t h⟩
  rw [append_logs_logs msgs t]
  simp

/-- C6, witness: the amended statement at a concrete one-message input. -/
theorem C6_witness :
    (append_logs init_task [("ts", "hello")]).logs
        = init_task.logs ++ [("ts", "hello")].map (fun q => log_line q.1 q.2) ∧
    (append_logs init_task [("ts", "hello")]).logs.length
        = init_task.logs.length + 1 ∧
    (append_logs init_task [("ts", "hello")]).progress = some "hello" :=
  C6_theorem init_task [("ts", "hello")] ("ts", "hello") rfl

/-! ### C8 -/

/-- C8, counterexample: no fixed slack and clamp bounds make the CEILING
formula of the claim agree with `calculate_required_clips` (which truncates):
the four durations 60, 61.5, 90 and 91.5 already rule every choice out. -/
theorem C8_counterexample :
    ¬ ∃ slack lo hi : ℤ, ∀ d : ℚ, 0 < d →
        calculate_required_clips d 15 = max lo (min hi (⌈d / 15⌉ + slack)) := by
  rintro ⟨s, lo, hi, h⟩
  have h1 := h 60 (by norm_num)
  have h2 := h (123 / 2) (by norm_num)
  have h3 := h 90 (by norm_num)
  have h4 := h (183 / 2) (by norm_num)
  have c1 : ⌈(60:ℚ) / 15⌉ = (4:ℤ) := by rw [Int.ceil_eq_iff]; norm_num
  have c2 : ⌈((123:ℚ) / 2) / 15⌉ = (5:ℤ) := by rw [Int.ceil_eq_iff]; norm_num
  have c3 : ⌈(90:ℚ) / 15⌉ = (6:ℤ) := by rw [Int.ceil_eq_iff]; norm_num
  have c4 : ⌈((183:ℚ) / 2) / 15⌉ = (7:ℤ) := by rw [Int.ceil_eq_iff]; norm_num
  rw [calculate_required_clips_eq_floor _ (by norm_num), c1] at h1
  rw [calculate_required_clips_eq_floor _ (by norm_num), c2] at h2
  rw [calculate_required_clips_eq_floor _ (by norm_num), c3] at h3
  rw [calculate_required_clips_eq_floor _ (by norm_num), c4] at h4
  norm_num at h1 h2 h3 h4
  omega

/-- C8, amended: the computed clip count is
`clamp(int(duration / 15) + 2, 3, 10)` — truncation (= floor on these
nonnegative durations) rather than ceiling, with slack 2 and clamp bounds
`MIN_CLIPS = 3`, `MAX_CLIPS = 10`; at the spec's worked duration 32.4 it
yields 4. -/
theorem C8_theorem :
    (∀ d : ℚ, 0 ≤ d →
        calculate_required_clips d 15 = max 3 (min 10 (⌊d / 15⌋ + 2))) ∧
    calculate_required_clips (162 / 5) 15 = 4 := by
  constructor
  · exact fun d hd => calculate_required_clips_eq_floor d hd
  · rw [calculate_required_clips_eq_floor _ (by norm_num)]
    norm_num

/-- C8, witness: the amended formula evaluated at duration 60. -/
theorem C8_witness :
    calculate_required_clips 60 15 = max 3 (min 10 (⌊(60:ℚ) / 15⌋ + 2)) :=
  C8_theorem.1 60 (by norm_num)

/-! ### C10 -/

/-- C10, counterexample: `log_task` called with an id absent from the store
returns with the store unchanged — it raises nothing and reports nothing, so
this task-store operation silently ignores the unknown id instead of
surfacing a NotFound failure. -/
theorem C10_counterexample :
    log_task [("a", init_task)] "missing" "ts" "msg" = [("a", init_task)] ∧
    get_task_status [("a", init_task)] "missing"
      = Except.error ERR_TASK_NOT_FOUND := by
  constructor
  · rfl
  · rfl

/-- C10, amended: on an unknown task id the status lookup does surface a
`Task not found` failure (HTTP 404), but appending a log message is silently
ignored: the store is returned unchanged and no failure is signalled. -/
theorem C10_theorem (s : TaskStore) (id : String)
    (h : lookupTask s id = none) :
    get_task_status s id = Except.error ERR_TASK_NOT_FOUND ∧
    ∀ ts msg, log_task s id ts msg = s := by
  constructor
  · simp [get_task_status, h]
  · intro ts msg
    simp [log_task, h]

/-- C10, witness: the amended statement on the empty store. -/
theorem C10_witness :
    get_task_status [] "x" = Except.error ERR_TASK_NOT_FOUND ∧
    ∀ ts msg, log_task [] "x" ts msg = [] :=
  C10_theorem [] "x" rfl

/-- Unfolding: closing step of the grouping loop. -/
lemma smart_groups_go_cons_pos (w : Word) (rest cur : List Word)
    (h : has_break_punct w = true ∨ 3 ≤ (cur ++ [w]).length) :
    smart_groups_go (w :: rest) cur = (cur ++ [w]) :: smart_groups_go rest [] := by
  rw [show smart_groups_go (w :: rest) cur
      = if has_break_punct w = true ∨ 3 ≤ (cur ++ [w]).length then
          (cur ++ [w]) :: smart_groups_go rest []
        else smart_groups_go rest (cur ++ [w]) from rfl,
    if_pos h]

/-- Unfolding: accumulating step of the grouping loop. -/
lemma smart_groups_go_cons_neg (w : Word) (rest cur : List Word)
    (h : ¬(has_break_punct w = true ∨ 3 ≤ (cur ++ [w]).length)) :
    smart_groups_go (w :: rest) cur = smart_groups_go rest (cur ++ [w]) := by
  simp only [smart_groups_go, if_neg h]

/-- The grouping loop partitions its input: the flattened groups are the
pending group followed by the remaining words, every emitted group is
non-empty, and no group exceeds 3 words. -/
lemma smart_groups_go_spec (ws : List Word) :
    ∀ cur : List Word, cur.length ≤ 2 →
      (smart_groups_go ws cur).flatten = cur ++ ws ∧
      ∀ g ∈ smart_groups_go ws cur, g ≠ [] ∧ g.length ≤ 3 := by
  induction ws with
  | nil =>
      intro cur hcur
      by_cases hc : cur = []
      · subst hc
        simp [smart_groups_go]
      · constructor
        · simp [smart_groups_go, List.isEmpty_iff, hc]
        · intro g hg
          simp [smart_groups_go, List.isEmpty_iff, hc] at hg
          subst hg
          exact ⟨hc, by omega⟩
  | cons w rest ih =>
      intro cur hcur
      by_cases hb : has_break_punct w = true ∨ 3 ≤ (cur ++ [w]).length
      · obtain ⟨ihf, ihg⟩ := ih [] (by simp)
        rw [smart_groups_go_cons_pos w rest cur hb]
        constructor
        · rw [List.flatten_cons, ihf]
          simp
        · intro g hg
          rcases List.mem_cons.mp hg with rfl | hg
          · refine ⟨by simp, ?_⟩
            have : (cur ++ [w]).length = cur.length + 1 := by simp
            omega
          · exact ihg g hg
      · have hlen : (cur ++ [w]).length ≤ 2 := by
          rcases not_or.mp hb with ⟨-, h2⟩
          omega
        rw [smart_groups_go_cons_neg w rest cur hb]
        obtain ⟨ihf, ihg⟩ := ih (cur ++ [w]) hlen
        refine ⟨?_, ihg⟩
        rw [ihf]
        simp

/-- The grouping loop closes groups exactly at break punctuation or size 3:
within any emitted group only the last word can carry break punctuation, and
every group except possibly the final flushed one was closed because its last
word has break punctuation or because it reached exactly 3 words. -/
lemma smart_groups_go_closing (ws : List Word) :
    ∀ cur : List Word, cur.length ≤ 2 →
      (∀ w ∈ cur, has_break_punct w = false) →
      (∀ g ∈ smart_groups_go ws cur, ∀ w ∈ g.dropLast,
          has_break_punct w = false) ∧
      (∀ g ∈ (smart_groups_go ws cur).dropLast,
          ∃ w, g.getLast? = some w ∧
            (has_break_punct w = true ∨ g.length = 3)) := by
  induction ws with
  | nil =>
      intro cur hcur hclean
      by_cases hc : cur = []
      · subst hc
        simp [smart_groups_go]
      · constructor
        · intro g hg
          simp [smart_groups_go, List.isEmpty_iff, hc] at hg
          subst hg
          intro w hw
          exact hclean w (List.dropLast_sublist _ |>.subset hw)
        · intro g hg
          simp [smart_groups_go, List.isEmpty_iff, hc] at hg
  | cons w rest ih =>
      intro cur hcur hclean
      by_cases hb : has_break_punct w = true ∨ 3 ≤ (cur ++ [w]).length
      · obtain ⟨ih1, ih2⟩ := ih [] (by simp) (by simp)
        rw [smart_groups_go_cons_pos w rest cur hb]
        constructor
        · intro g hg
          rcases List.mem_cons.mp hg with rfl | hg
          · intro v hv
            rw [List.dropLast_concat] at hv
            exact hclean v hv
          · exact ih1 g hg
        · cases hgs : smart_groups_go rest [] with
          | nil => simp
          | cons g2 gs2 =>
              rw [List.dropLast_cons₂]
              intro g hg
              rcases List.mem_cons.mp hg with rfl | hg
              · refine ⟨w, List.getLast?_concat cur, ?_⟩
                rcases hb with hb | hb
                · exact Or.inl hb
                · right
                  have : (cur ++ [w]).length = cur.length + 1 := by simp
                  omega
              · rw [hgs] at ih2
                exact ih2 g hg
      · have hlen : (cur ++ [w]).length ≤ 2 := by
          rcases not_or.mp hb with ⟨-, h2⟩
          omega
        have hclean2 : ∀ v ∈ cur ++ [w], has_break_punct v = false := by
          intro v hv
          rcases List.mem_append.mp hv with hv | hv
          · exact hclean v hv
          · rcases not_or.mp hb with ⟨h1, -⟩
            simp at hv
            subst hv
            exact Bool.not_eq_true _ |>.mp h1
        rw [smart_groups_go_cons_neg w rest cur hb]
        exact ih (cur ++ [w]) hlen hclean2

/-! ### C5 -/

/-- C5: the emitted caption groups partition the word sequence in order — the
concatenation of the groups is exactly the original sequence (hence no gaps,
no overlaps, no reordering) — every group is non-empty with at most 3 words,
and concatenating the groups' word texts reproduces the original texts. -/
theorem C5_theorem (words : List Word) :
    (create_smart_word_groups words).flatten = words ∧
    (∀ g ∈ create_smart_word_groups words, g ≠ [] ∧ g.length ≤ 3) ∧
    ((create_smart_word_groups words).map (fun g => g.map Word.word)).flatten
      = words.map Word.word := by
  obtain ⟨h1, h2⟩ := smart_groups_go_spec words [] (by simp)
  have h1' : (create_smart_word_groups words).flatten = words := by
    simpa [create_smart_word_groups] using h1
  refine ⟨h1', fun g hg => h2 g hg, ?_⟩
  rw [← List.map_flatten, h1']

/-- C5, witness: the partition facts extracted at the spec's worked example —
the first emitted group is non-empty and within the 3-word bound. -/
theorem C5_witness :
    ([hello_w1, hello_w2] : List Word) ≠ [] ∧
    ([hello_w1, hello_w2] : List Word).length ≤ 3 :=
  (C5_theorem hello_words).2.1 [hello_w1, hello_w2] (by decide)

/-! ### C7 -/

/-- C7, counterexample: the source closes a group when break punctuation
occurs ANYWHERE in the word's text (Python `punct in word_text`), not only
when the text ends with it.  On the word `3.5` the source closes the group
immediately (the dot is interior), while the spec's ends-with rule keeps
accumulating, so the two groupings disagree. -/
theorem C7_counterexample :
    create_smart_word_groups cex_words = [[cex_w1], [cex_w2, cex_w3, cex_w4]] ∧
    spec_smart_word_groups cex_words = [[cex_w1, cex_w2, cex_w3], [cex_w4]] ∧
    create_smart_word_groups cex_words ≠ spec_smart_word_groups cex_words :=
  ⟨by decide, by decide, by decide⟩

/-- C7, amended: grouping closes the current group exactly when the current
word's text CONTAINS a sentence/clause punctuation mark (anywhere, not
necessarily at the end) or when the group has reached 3 words, whichever
comes first, and flushes any non-empty trailing group: only a group's last
word can carry break punctuation, and every non-final group ends in a
break-carrying word or has exactly 3 words.  On the spec's example the
emitted groups are Hello world, and today is great as claimed. -/
theorem C7_theorem :
    (∀ ws : List Word,
        (∀ g ∈ create_smart_word_groups ws, ∀ w ∈ g.dropLast,
            has_break_punct w = false) ∧
        (∀ g ∈ (create_smart_word_groups ws).dropLast,
            ∃ w, g.getLast? = some w ∧
              (has_break_punct w = true ∨ g.length = 3))) ∧
    create_smart_word_groups hello_words
      = [[hello_w1, hello_w2], [hello_w3, hello_w4, hello_w5]] := by
  constructor
  · intro ws
    exact smart_groups_go_closing ws [] (by simp) (by simp)
  · decide

/-- C7, witness: the amended closing rule at the spec's example — the first
emitted group ends in the break-carrying word `world,`. -/
theorem C7_witness :
    ∃ w, ([hello_w1, hello_w2] : List Word).getLast? = some w ∧
      (has_break_punct w = true ∨ ([hello_w1, hello_w2] : List Word).length = 3) :=
  (C7_theorem.1 hello_words).2 [hello_w1, hello_w2] (by decide)

/-! ### C9 -/

/-- C9: the terminal-state invariant holds on every reachable task record —
once terminal, exactly one of output location / error is set (the output iff
completed, the error iff failed) and the completion timestamp is set iff the
status is terminal; in `pending` and `processing` none of the three is
set.  Every pipeline transition preserves it. -/
theorem C9_theorem (t : TaskRec) (h : ReachableTask t) : TaskInv t := by
  induction h with
  | init =>
      refine ⟨?_, ?_, ?_, ?_⟩ <;> simp [init_task, TaskInv]
  | step hr hs ih =>
      cases hs with
      | start hp =>
          obtain ⟨-, -, -, h4⟩ := ih
          obtain ⟨ho, he, hc⟩ := h4 (Or.inl hp)
          refine ⟨?_, ?_, ?_, ?_⟩ <;> simp [set_processing, ho, he, hc]
      | complete out hp =>
          obtain ⟨-, -, -, h4⟩ := ih
          obtain ⟨ho, he, hc⟩ := h4 (Or.inr hp)
          refine ⟨?_, ?_, ?_, ?_⟩ <;> simp [complete_task, he]
      | fail err hp =>
          obtain ⟨-, -, -, h4⟩ := ih
          obtain ⟨ho, he, hc⟩ := h4 (Or.inr hp)
          refine ⟨?_, ?_, ?_, ?_⟩ <;> simp [fail_task, ho]
      | progress msg =>
          obtain ⟨h1, h2, h3, h4⟩ := ih
          exact ⟨h1, h2, h3, h4⟩
      | duration d =>
          obtain ⟨h1, h2, h3, h4⟩ := ih
          exact ⟨h1, h2, h3, h4⟩
      | log ts msg =>
          obtain ⟨h1, h2, h3, h4⟩ := ih
          exact ⟨h1, h2, h3, h4⟩

/-- C9, witness: the invariant at the concrete record reached by
submit → start processing → complete. -/
theorem C9_witness :
    TaskInv (complete_task (set_processing init_task) "output_videos/t_final.mp4") :=
  C9_theorem _
    (ReachableTask.step
      (ReachableTask.step ReachableTask.init (PipelineStep.start _ rfl))
      (PipelineStep.complete _ _ rfl))

/-! ### C4 helpers -/

/-- The download loop keeps exactly the items passing `ok`, in order. -/
lemma download_loop_eq_filter {α : Type} (ok : α → Bool) (l : List α) :
    download_loop ok l = l.filter ok := by
  induction l with
  | nil => rfl
  | cons x xs ih =>
      by_cases h : ok x
      · simp [download_loop, h, ih]
      · simp only [Bool.not_eq_true] at h
        simp [download_loop, h, ih]

/-- The conversion loop keeps exactly the items passing `ok`, in order. -/
lemma convert_loop_eq_filter {α : Type} (ok : α → Bool) (l : List α) :
    convert_loop ok l = l.filter ok := by
  induction l with
  | nil => rfl
  | cons x xs ih =>
      by_cases h : ok x
      · simp [convert_loop, h, ih]
      · simp only [Bool.not_eq_true] at h
        simp [convert_loop, h, ih]

/-- Survivors and failures of one pass together account for every item. -/
lemma length_filter_add_length_filter_not {α : Type} (ok : α → Bool)
    (l : List α) :
    (l.filter ok).length + (l.filter (fun x => !(ok x))).length = l.length := by
  induction l with
  | nil => rfl
  | cons x xs ih =>
      by_cases h : ok x
      · simp [List.filter_cons, h, ih]
        omega
      · simp only [Bool.not_eq_true] at h
        simp [List.filter_cons, h, ih]
        omega

/-! ### C4 -/

/-- C4: over `m ≥ 1` items of which `k` fail, both the footage download stage
and the normalization stage succeed whenever `k < m`, returning exactly the
`m − k` surviving items in their original order (the order-respecting
sub-sequence of survivors), and raise their stage failure exactly when
`k = m`. -/
theorem C4_theorem {α : Type} (ok : α → Bool) (items : List α)
    (_hne : items ≠ []) :
    ((items.filter (fun x => !(ok x))).length < items.length →
        download_multiple_videos ok items = Except.ok (items.filter ok) ∧
        convert_multiple_to_shorts ok items = Except.ok (items.filter ok) ∧
        List.Sublist (items.filter ok) items ∧
        (items.filter ok).length
          = items.length - (items.filter (fun x => !(ok x))).length) ∧
    ((items.filter (fun x => !(ok x))).length = items.length →
        download_multiple_videos ok items = Except.error ERR_NO_DOWNLOADS ∧
        convert_multiple_to_shorts ok items = Except.error ERR_NO_CONVERSIONS) := by
  have hsum := length_filter_add_length_filter_not ok items
  constructor
  · intro hk
    have hpos : 0 < (items.filter ok).length := by omega
    have hne2 : items.filter ok ≠ [] := by
      intro h0
      rw [h0] at hpos
      simp at hpos
    have hemp : (items.filter ok).isEmpty = false := by
      cases hfo : items.filter ok with
      | nil => exact absurd hfo hne2
      | cons a l => rfl
    refine ⟨?_, ?_, List.filter_sublist items, by omega⟩
    · simp [download_multiple_videos, download_loop_eq_filter, hemp]
    · simp [convert_multiple_to_shorts, convert_loop_eq_filter, hemp]
  · intro hk
    have h0 : (items.filter ok).length = 0 := by omega
    have hnil : items.filter ok = [] := List.length_eq_zero.mp h0
    constructor
    · simp [download_multiple_videos, download_loop_eq_filter, hnil]
    · simp [convert_multiple_to_shorts, convert_loop_eq_filter, hnil]

/-- C4, witness: three items of which the middle one fails — both stages
return the two survivors in order. -/
theorem C4_witness :
    ((([1, 2, 3] : List ℕ).filter (fun x => !(fun x : ℕ => decide (x ≠ 2)) x)).length
        < ([1, 2, 3] : List ℕ).length →
      download_multiple_videos (fun x : ℕ => decide (x ≠ 2)) [1, 2, 3]
          = Except.ok (([1, 2, 3] : List ℕ).filter (fun x : ℕ => decide (x ≠ 2))) ∧
      convert_multiple_to_shorts (fun x : ℕ => decide (x ≠ 2)) [1, 2, 3]
          = Except.ok (([1, 2, 3] : List ℕ).filter (fun x : ℕ => decide (x ≠ 2))) ∧
      List.Sublist (([1, 2, 3] : List ℕ).filter (fun x : ℕ => decide (x ≠ 2))) [1, 2, 3] ∧
      (([1, 2, 3] : List ℕ).filter (fun x : ℕ => decide (x ≠ 2))).length
        = ([1, 2, 3] : List ℕ).length
            - (([1, 2, 3] : List ℕ).filter (fun x => !(fun x : ℕ => decide (x ≠ 2)) x)).length) ∧
    ((([1, 2, 3] : List ℕ).filter (fun x => !(fun x : ℕ => decide (x ≠ 2)) x)).length
        = ([1, 2, 3] : List ℕ).length →
      download_multiple_videos (fun x : ℕ => decide (x ≠ 2)) [1, 2, 3]
          = Except.error ERR_NO_DOWNLOADS ∧
      convert_multiple_to_shorts (fun x : ℕ => decide (x ≠ 2)) [1, 2, 3]
          = Except.error ERR_NO_CONVERSIONS) :=
  C4_theorem (fun x : ℕ => decide (x ≠ 2)) [1, 2, 3] (by decide)

/-! ### C2 helpers -/

/-- One consumed segment never exceeds the remaining budget. -/
lemma clip_take_le (lens : List ℚ) (target current : ℚ) (idx : Nat) :
    clip_take lens target current idx ≤ target - current := by
  unfold clip_take
  split
  · assumption
  · exact le_refl _

/-- Once the budget is exhausted the loop stops at once, for any fuel. -/
lemma compile_loop_of_not_lt (lens : List ℚ) (target current : ℚ)
    (idx fuel : Nat) (h : ¬ current < target) :
    compile_loop lens target current idx fuel = some [] := by
  cases fuel with
  | zero => simp [compile_loop, h]
  | succ f => simp [compile_loop, h]

/-- Whenever the loop returns, the consumed segments sum to exactly the
missing budget: `current + sum = target`. -/
lemma compile_loop_sum (lens : List ℚ) (target : ℚ) (fuel : Nat) :
    ∀ (current : ℚ) (idx : Nat) (segs : List ℚ), current ≤ target →
      compile_loop lens target current idx fuel = some segs →
      current + segs.sum = target := by
  induction fuel with
  | zero =>
      intro current idx segs hle h
      by_cases hc : current < target
      · simp [compile_loop, hc] at h
      · simp [compile_loop, hc] at h
        subst h
        simp
        linarith [not_lt.mp hc]
  | succ f ih =>
      intro current idx segs hle h
      by_cases hc : current < target
      · rw [show compile_loop lens target current idx (Nat.succ f)
            = (compile_loop lens target
                (current + clip_take lens target current idx) (idx + 1) f).map
              (fun rest => clip_take lens target current idx :: rest) from by
            simp [compile_loop, hc]] at h
        rcases Option.map_eq_some'.mp h with ⟨rest, hrest, hsegs⟩
        subst hsegs
        have hnext : current + clip_take lens target current idx ≤ target := by
          have := clip_take_le lens target current idx
          linarith
        have := ih (current + clip_take lens target current idx) (idx + 1)
          rest hnext hrest
        simp only [List.sum_cons]
        linarith
      · rw [compile_loop_of_not_lt lens target current idx _ hc] at h
        have hsegs : segs = [] := by
          injection h with h
          exact h.symm
        subst hsegs
        simp
        linarith [not_lt.mp hc]

/-- With enough fuel — one unit per multiple of a positive lower bound `m` on
the clip lengths still missing from the budget — the loop returns. -/
lemma compile_loop_isSome (lens : List ℚ) (target m : ℚ) (hm : 0 < m)
    (hml : ∀ l ∈ lens, m ≤ l) (hne : lens ≠ []) (fuel : Nat) :
    ∀ (current : ℚ) (idx : Nat), target - current ≤ (fuel : ℚ) * m →
      (compile_loop lens target current idx fuel).isSome := by
  induction fuel with
  | zero =>
      intro current idx hb
      have hc : ¬ current < target := by
        simp at hb
        linarith
      simp [compile_loop, hc]
  | succ f ih =>
      intro current idx hb
      by_cases hc : current < target
      · have hmem : lens.getD (idx % lens.length) 0 ∈ lens := by
          have hlt : idx % lens.length < lens.length :=
            Nat.mod_lt _ (List.length_pos.mpr hne)
          rw [List.getD_eq_getElem lens 0 hlt]
          exact List.getElem_mem hlt
        have hnext : target - (current + clip_take lens target current idx)
            ≤ (f : ℚ) * m := by
          by_cases hfit : lens.getD (idx % lens.length) 0 ≤ target - current
          · have hct : clip_take lens target current idx
                = lens.getD (idx % lens.length) 0 := if_pos hfit
            have hm2 : m ≤ lens.getD (idx % lens.length) 0 := hml _ hmem
            have hcast : ((Nat.succ f : ℕ) : ℚ) * m = (f : ℚ) * m + m := by
              push_cast
              ring
            rw [hct]
            rw [hcast] at hb
            linarith
          · have hct : clip_take lens target current idx = target - current :=
              if_neg hfit
            rw [hct]
            have : (0:ℚ) ≤ (f : ℚ) * m := by positivity
            linarith
        have hrec := ih (current + clip_take lens target current idx)
          (idx + 1) hnext
        rw [show compile_loop lens target current idx (Nat.succ f)
            = (compile_loop lens target
                (current + clip_take lens target current idx) (idx + 1) f).map
              (fun rest => clip_take lens target current idx :: rest) from by
            simp [compile_loop, hc]]
        simpa using hrec
      · simp [compile_loop, hc]

/-- Cyclic structure of the consumed segments: every segment except possibly
the last is the whole clip at the rotating cursor, and every segment is at
most that clip's length (the last may be a strict prefix). -/
lemma compile_loop_segments (lens : List ℚ) (target : ℚ) (fuel : Nat) :
    ∀ (current : ℚ) (idx : Nat) (segs : List ℚ),
      compile_loop lens target current idx fuel = some segs →
      ∀ i, i < segs.length →
        segs.getD i 0 ≤ lens.getD ((idx + i) % lens.length) 0 ∧
        (i + 1 < segs.length →
          segs.getD i 0 = lens.getD ((idx + i) % lens.length) 0) := by
  induction fuel with
  | zero =>
      intro current idx segs h i hi
      by_cases hc : current < target
      · simp [compile_loop, hc] at h
      · simp [compile_loop, hc] at h
        subst h
        simp at hi
  | succ f ih =>
      intro current idx segs h i hi
      by_cases hc : current < target
      · rw [show compile_loop lens target current idx (Nat.succ f)
            = (compile_loop lens target
                (current + clip_take lens target current idx) (idx + 1) f).map
              (fun rest => clip_take lens target current idx :: rest) from by
            simp [compile_loop, hc]] at h
        rcases Option.map_eq_some'.mp h with ⟨rest, hrest, hsegs⟩
        subst hsegs
        by_cases hfit : lens.getD (idx % lens.length) 0 ≤ target - current
        · have hct : clip_take lens target current idx
              = lens.getD (idx % lens.length) 0 := if_pos hfit
          cases i with
          | zero =>
              constructor
              · simp [hct]
              · intro _
                simp [hct]
          | succ j =>
              have hj : j < rest.length := by
                simp at hi
                omega
              have := ih (current + clip_take lens target current idx)
                (idx + 1) rest hrest j hj
              have harith : idx + 1 + j = idx + (j + 1) := by omega
              rw [harith] at this
              constructor
              · simpa using this.1
              · intro hj2
                have hj3 : j + 1 < rest.length := by
                  simp at hj2
                  omega
                simpa using this.2 hj3
        · have hct : clip_take lens target current idx = target - current :=
            if_neg hfit
          have hdone : rest = [] := by
            have hstop : ¬ current + clip_take lens target current idx < target := by
              rw [hct]
              simp
            rw [compile_loop_of_not_lt lens target _ (idx + 1) f hstop] at hrest
            injection hrest with h2
            exact h2.symm
          subst hdone
          have hi0 : i = 0 := by
            simp at hi
            omega
          subst hi0
          constructor
          · rw [List.getD_cons_zero, hct, Nat.add_zero]
            linarith [not_le.mp hfit]
          · intro habs
            simp at habs
      · rw [compile_loop_of_not_lt lens target current idx _ hc] at h
        have hsegs : segs = [] := by
          injection h with h2
          exact h2.symm
        subst hsegs
        simp at hi

/-- A non-empty list of positive rationals has a positive lower bound. -/
lemma exists_pos_lower_bound (lens : List ℚ) (hne : lens ≠ [])
    (hpos : ∀ l ∈ lens, 0 < l) :
    ∃ m : ℚ, 0 < m ∧ ∀ l ∈ lens, m ≤ l := by
  induction lens with
  | nil => exact absurd rfl hne
  | cons x rest ih =>
      by_cases hr : rest = []
      · subst hr
        exact ⟨x, hpos x (by simp), by simp⟩
      · obtain ⟨m, hm0, hm⟩ :=
          ih hr (fun l hl => hpos l (List.mem_cons_of_mem _ hl))
        refine ⟨min x m, lt_min (hpos x (by simp)) hm0, ?_⟩
        intro l hl
        rcases List.mem_cons.mp hl with rfl | hl
        · exact min_le_left _ _
        · exact le_trans (min_le_right _ _) (hm l hl)

/-! ### C2 -/

/-- C2: for every non-empty list of positive clip lengths and every positive
target duration, some fuel makes the compilation loop terminate with a list
of consumed segments whose total length is EXACTLY the target duration;
moreover the segments follow the cyclic cursor — each one is bounded by the
clip at cursor position `i mod n`, and every segment except possibly the
last is that whole clip (the last may be a prefix).  The list may have a
single element, which is then consumed cyclically. -/
theorem C2_theorem (lens : List ℚ) (target : ℚ) (hne : lens ≠ [])
    (hpos : ∀ l ∈ lens, 0 < l) (ht : 0 < target) :
    ∃ (fuel : Nat) (segs : List ℚ),
      create_seamless_video_compilation lens target fuel = some segs ∧
      segs.sum = target ∧
      ∀ i, i < segs.length →
        segs.getD i 0 ≤ lens.getD (i % lens.length) 0 ∧
        (i + 1 < segs.length →
          segs.getD i 0 = lens.getD (i % lens.length) 0) := by
  obtain ⟨m, hm0, hml⟩ := exists_pos_lower_bound lens hne hpos
  obtain ⟨n, hn⟩ := exists_nat_ge (target / m)
  have hfuel : target - 0 ≤ (n : ℚ) * m := by
    have := (div_le_iff₀ hm0).mp hn
    linarith
  have hsome := compile_loop_isSome lens target m hm0 hml hne n 0 0 hfuel
  obtain ⟨segs, hsegs⟩ := Option.isSome_iff_exists.mp hsome
  refine ⟨n, segs, hsegs, ?_, ?_⟩
  · have := compile_loop_sum lens target n 0 0 segs (le_of_lt ht) hsegs
    linarith
  · intro i hi
    have := compile_loop_segments lens target n 0 0 segs hsegs i hi
    simpa using this

/-- C2, witness: a single 4-second clip against a 10-second target — the
theorem applies, so some fuel yields segments summing exactly to 10, the
single clip being reused cyclically. -/
theorem C2_witness :
    ∃ (fuel : Nat) (segs : List ℚ),
      create_seamless_video_compilation [4] 10 fuel = some segs ∧
      segs.sum = 10 ∧
      ∀ i, i < segs.length →
        segs.getD i 0 ≤ ([(4:ℚ)] : List ℚ).getD (i % ([(4:ℚ)] : List ℚ).length) 0 ∧
        (i + 1 < segs.length →
          segs.getD i 0 = ([(4:ℚ)] : List ℚ).getD (i % ([(4:ℚ)] : List ℚ).length) 0) :=
  C2_theorem [4] 10 (by decide) (by decide) (by norm_num)
